import Mathlib

/-!
Verification of the lockstep zip engine of the `faster` SIMD library
(`src/zip.rs`): the `Zip` engine over N vectorized streams, its
construction check, `next`/`end` protocols, leader delegation, the
`simd_reduce` consumer and the `SIMDZipMap` lazy transform.

Hardware vectors are embedded as `List α` of `width` lanes; a tuple of
vectors (the engine's item type) is a `List (List α)` with the leader's
vector first.  The per-arity macro `impl_iter_zip!` (arities 2..13) is
embedded once, generically, as a leader stream plus a list of follower
streams.
-/

set_option maxRecDepth 8000

variable {α β : Type}

/-- Modelled from the spec: the Vectorized Stream collaborator (spec §3, §6).
The concrete stream implementation (`PackedIter` with its `SIMDIterator`,
`UnsafeIterator` and `ExactSizeIterator` impls) is not among the given
sources; only its contract is, so it is embedded from the spec's words:
`width` lanes per vector, `size` bytes per scalar (both constant for the
stream's lifetime), `scalar_len` the total element count, `scalar_pos` the
elements consumed so far, `dflt` the neutral scalar filling the default
vector and padded tail lanes. -/
structure VStream (α : Type) where
  data : List α
  dflt : α
  width : Nat
  size : Nat
  pos : Nat
deriving DecidableEq

/-- Total element count of the stream (`scalar_len`, i.e. `len()` in this
codebase's convention). -/
def VStream.scalarLen (s : VStream α) : Nat := s.data.length

/-- Elements consumed so far (`scalar_pos`). -/
def VStream.scalarPos (s : VStream α) : Nat := s.pos

/-- Modelled from the spec: the stream's neutral/zero-filled default vector. -/
def VStream.defaultVec (s : VStream α) : List α := List.replicate s.width s.dflt

/-- Modelled from the spec: `advance(amount)` skips `amount` scalars without
producing them. -/
def VStream.advance (s : VStream α) (amount : Nat) : VStream α :=
  VStream.mk s.data s.dflt s.width s.size (s.pos + amount)

/-- The full vector of `width` scalars starting at scalar index `p`. -/
def VStream.loadAt (s : VStream α) (p : Nat) : List α :=
  (s.data.drop p).take s.width

/-- Modelled from the spec: `next()` yields a full vector and steps the
position by one vector, or yields no value (leaving the stream unchanged)
when fewer than `width` elements remain. -/
def VStream.next (s : VStream α) : Option (List α) × VStream α :=
  if s.pos + s.width ≤ s.data.length then
    (some (s.loadAt s.pos), VStream.mk s.data s.dflt s.width s.size (s.pos + s.width))
  else
    (none, s)

/-- The partially filled tail vector: `n` valid lanes read from scalar index
`p`, the remaining lanes padded with the stream's default scalar. -/
def VStream.padTail (s : VStream α) (p n : Nat) : List α :=
  (s.data.drop p).take n ++ List.replicate (s.width - n) s.dflt

/-- Modelled from the spec: `end()` yields the tail vector with its
valid-lane count and moves the position to the end of the data, or yields
no value (leaving the stream unchanged) when nothing remains. -/
def VStream.endv (s : VStream α) : Option (List α × Nat) × VStream α :=
  if s.data.length ≤ s.pos then
    (none, s)
  else
    (some (s.padTail s.pos (s.data.length - s.pos), s.data.length - s.pos),
     VStream.mk s.data s.dflt s.width s.size s.data.length)

/-- Modelled from the spec: the trusted indexed variant of `next`, keyed on
the caller-supplied shared position; the follower is brought into sync with
that position lazily (spec §4.1). -/
def VStream.nextUnchecked (s : VStream α) (p : Nat) : List α × VStream α :=
  (s.loadAt p, VStream.mk s.data s.dflt s.width s.size (p + s.width))

/-- Modelled from the spec: the trusted indexed variant of `end`, keyed on
the caller-supplied shared position and valid-lane count `n`; fills the same
`n` valid lanes, pads with its own default, and syncs to `p + n`. -/
def VStream.endUnchecked (s : VStream α) (p n : Nat) : List α × VStream α :=
  (s.padTail p n, VStream.mk s.data s.dflt s.width s.size (p + n))

/-- The `Zip` engine of `src/zip.rs`: the tuple of member iterators is
embedded as the leader (`iters.0`) plus the ordered list of followers
(`iters.1`, ..., `iters.N-1`); the arity is `1 + followers.length`. -/
structure Zip (α : Type) where
  leader : VStream α
  followers : List (VStream α)
deriving DecidableEq

/-- Construction via `IntoSIMDZip::zip`: panics (here: `none`) when some
member's `scalar_len` differs from the leader's, otherwise wraps the streams
untouched. -/
def zip (l : VStream α) (fs : List (VStream α)) : Option (Zip α) :=
  if ∀ f ∈ fs, VStream.scalarLen f = VStream.scalarLen l then
    some (Zip.mk l fs)
  else
    none

/-- `ExactSizeIterator::len` for `Zip`: the leader's length. -/
def Zip.len (z : Zip α) : Nat := z.leader.scalarLen

/-- `SIMDZippedIterable::scalar_pos` for `Zip`: the leader's position. -/
def Zip.scalarPos (z : Zip α) : Nat := z.leader.scalarPos

/-- `SIMDZippedObject::width` for `Zip`: the leader's width. -/
def Zip.width (z : Zip α) : Nat := z.leader.width

/-- `SIMDZippedObject::size` for `Zip`: the leader's scalar size. -/
def Zip.size (z : Zip α) : Nat := z.leader.size

/-- `SIMDZippedIterable::advance` for `Zip`: advances only the leader. -/
def Zip.advance (z : Zip α) (amount : Nat) : Zip α :=
  Zip.mk (z.leader.advance amount) z.followers

/-- `SIMDZippedIterable::default` for `Zip`: the tuple of every member's
default vector. -/
def Zip.defaultVec (z : Zip α) : List (List α) :=
  z.leader.defaultVec :: z.followers.map VStream.defaultVec

/-- `Iterator::next` for `Zip`: captures the leader's pre-advance scalar
position, advances the leader, and on success reads every follower through
`next_unchecked` keyed on the captured position. -/
def Zip.next (z : Zip α) : Option (List (List α)) × Zip α :=
  match z.leader.next with
  | (none, l') => (none, Zip.mk l' z.followers)
  | (some v, l') =>
    (some (v :: z.followers.map (fun f => (f.nextUnchecked z.leader.pos).1)),
     Zip.mk l' (z.followers.map (fun f => (f.nextUnchecked z.leader.pos).2)))

/-- `SIMDZippedIterator::end` for `Zip`: captures the shared scalar
position, asks the leader for its tail, and on success reads every follower
through `end_unchecked` with that position and the leader's valid-lane
count. -/
def Zip.endv (z : Zip α) : Option (List (List α) × Nat) × Zip α :=
  match z.leader.endv with
  | (none, l') => (none, Zip.mk l' z.followers)
  | (some (v, n), l') =>
    (some (v :: z.followers.map (fun f => (f.endUnchecked z.leader.pos n).1), n),
     Zip.mk l' (z.followers.map (fun f => (f.endUnchecked z.leader.pos n).2)))

/-- The vectors yielded by at most `fuel` successive `next` calls, together
with the engine state after the loop stops (at the first no-value answer, or
when the fuel runs out). -/
def Zip.collectNexts : Nat → Zip α → List (List (List α)) × Zip α
  | 0, z => ([], z)
  | Nat.succ fuel, z =>
    match z.next with
    | (none, z') => ([], z')
    | (some v, z') =>
      let r := Zip.collectNexts fuel z'
      (v :: r.1, r.2)

/-- The accumulator loop of `simd_reduce`: folds `f` over at most `fuel`
successive `next` results, returning the accumulator and the state after the
loop. -/
def reduceGo (f : β → List (List α) → β) : Nat → β → Zip α → β × Zip α
  | 0, acc, z => (acc, z)
  | Nat.succ fuel, acc, z =>
    match z.next with
    | (none, z') => (acc, z')
    | (some v, z') => reduceGo f fuel (f acc v) z'

/-- `SIMDZippedIterator::simd_reduce`: folds `f` over every vector yielded
by `next` until no value is produced, then applies `f` once more to the tail
vector if `end` yields one, ignoring its valid-lane count.  The `while`
loop is run with `scalar_len + 1` fuel, which is shown sufficient whenever
the leader's width is positive. -/
def simdReduce (z : Zip α) (start : β) (f : β → List (List α) → β) : β :=
  let r := reduceGo f (Zip.len z + 1) start z
  match (Zip.endv r.2).1 with
  | some (v, _) => f r.1 v
  | none => r.1

/-- The answers of `count` successive `next` calls on the engine, no-value
answers included. -/
def Zip.nextTrace : Nat → Zip α → List (Option (List (List α)))
  | 0, _ => []
  | Nat.succ count, z => (z.next).1 :: Zip.nextTrace count (z.next).2

/-- `SIMDZipMap` of `src/zip.rs`: wraps a zipped stream and a transform.
The field `outSize` is modelled from the spec: it stands for the Zip-Map's
own `size()` (the byte size of the transform's output scalar type, spec
§4.3), whose `SIMDObject` impl is not among the given sources. -/
structure SIMDZipMap (α β : Type) where
  iter : Zip α
  func : List (List α) → List β
  outSize : Nat

/-- `Iterator::next` for `SIMDZipMap`: delegates to the wrapped stream and
applies the transform to a produced value. -/
def SIMDZipMap.next (m : SIMDZipMap α β) : Option (List β) × SIMDZipMap α β :=
  ((m.iter.next).1.map m.func, SIMDZipMap.mk (m.iter.next).2 m.func m.outSize)

/-- `SIMDIterator::end` for `SIMDZipMap`: delegates to the wrapped stream's
`end`; on a tail `(v, n)` it computes `n * iter.size() / size()` with the
unguarded integer division of the source (division by zero panics, embedded
as the `error` branch) and applies the transform once to the tail vector. -/
def SIMDZipMap.endv (m : SIMDZipMap α β) :
    Except Unit (Option (List β × Nat) × SIMDZipMap α β) :=
  match m.iter.endv with
  | (none, z') => Except.ok (none, SIMDZipMap.mk z' m.func m.outSize)
  | (some (v, n), z') =>
    if m.outSize = 0 then Except.error ()
    else
      Except.ok (some (m.func v, n * z'.size / m.outSize),
                 SIMDZipMap.mk z' m.func m.outSize)

/-- Truth of the `ok` branch of an `Except` result. -/
def isOkE : Except Unit σ → Bool
  | Except.ok _ => true
  | Except.error _ => false

/-- The answers of `count` successive `next` calls on a Zip-Map. -/
def SIMDZipMap.nextTrace : Nat → SIMDZipMap α β → List (Option (List β))
  | 0, _ => []
  | Nat.succ count, m => (m.next).1 :: SIMDZipMap.nextTrace count (m.next).2

/-- One observable engine operation: a `next` call, an `end` call, or an
`advance(k)` call. -/
inductive ZOp where
  | onext : ZOp
  | oend : ZOp
  | oadv : Nat → ZOp
deriving DecidableEq

/-- Apply one operation to the engine, keeping only the resulting state. -/
def Zip.step (z : Zip α) : ZOp → Zip α
  | ZOp.onext => (z.next).2
  | ZOp.oend => (z.endv).2
  | ZOp.oadv k => z.advance k

/-- Run a sequence of operations on the engine. -/
def Zip.run (z : Zip α) (ops : List ZOp) : Zip α := ops.foldl Zip.step z

/-- Lockstep: every follower reports the leader's scalar position. -/
def inLockstep (z : Zip α) : Prop := ∀ f ∈ z.followers, f.pos = z.leader.pos

/-- The portability precondition of spec invariant I3: every follower shares
the leader's vector width. -/
def sharedWidth (z : Zip α) : Prop := ∀ f ∈ z.followers, f.width = z.leader.width

/-- Concrete stream: eight integers, width 4, default 0, at position 0. -/
def strA : VStream Int := VStream.mk [1, 2, 3, 4, 5, 6, 7, 8] 0 4 4 0

/-- Concrete stream: eight integers, width 4, default 0, at position 0. -/
def strB : VStream Int := VStream.mk [10, 20, 30, 40, 50, 60, 70, 80] 0 4 4 0

/-- Same data as `strB` but with default scalar 7. -/
def strB7 : VStream Int := VStream.mk [10, 20, 30, 40, 50, 60, 70, 80] 7 4 4 0

/-- Concrete two-member engine over `strA` and `strB`. -/
def zAB : Zip Int := Zip.mk strA [strB]

/-- Concrete stream with a ragged tail: six elements, width 4, position 4. -/
def strT : VStream Int := VStream.mk [1, 2, 3, 4, 5, 6] 0 4 4 4

/-- Concrete follower with a ragged tail and default scalar 5. -/
def strU : VStream Int := VStream.mk [9, 8, 7, 6, 5, 4] 5 4 4 4

/-- Concrete two-member engine positioned just before its ragged tail. -/
def zTU : Zip Int := Zip.mk strT [strU]

/-- Concrete leader that is too short to yield a full vector. -/
def strX : VStream Int := VStream.mk [1, 2, 3] 0 4 4 0

/-- Concrete stream of one hundred scalars 2 (the scenario's exact value
2.0), width 4. -/
def s2Q : VStream Int := VStream.mk (List.replicate 100 2) 0 4 4 0

/-- Concrete stream of one hundred scalars 3 (the scenario's exact value
3.0), width 4. -/
def s3Q : VStream Int := VStream.mk (List.replicate 100 3) 0 4 4 0

/-- The engine of the spec's concrete reduction scenario (§8). -/
def zC5 : Zip Int := Zip.mk s2Q [s3Q]

/-- Lane-wise addition of every vector of a tuple into the accumulator:
the reduction function `acc + a + b` of the spec's concrete scenario. -/
def addLanes (acc : List Int) (vs : List (List Int)) : List Int :=
  vs.foldl (fun a v => List.zipWith (fun x y => x + y) a v) acc

/-- Concrete Zip-Map over `zTU`: lane-wise sum of the tuple, output scalar
size 4. -/
def mTU : SIMDZipMap Int Int :=
  SIMDZipMap.mk zTU
    (fun vs => vs.foldl (fun a v => List.zipWith (fun x y => x + y) a v)
      (List.replicate 4 0)) 4

instance (z : Zip α) : Decidable (inLockstep z) :=
  inferInstanceAs (Decidable (∀ f ∈ z.followers, f.pos = z.leader.pos))

instance (z : Zip α) : Decidable (sharedWidth z) :=
  inferInstanceAs (Decidable (∀ f ∈ z.followers, f.width = z.leader.width))

lemma step_next_sync (z : Zip α) (h1 : inLockstep z) (h2 : sharedWidth z) :
    inLockstep (z.next).2 ∧ sharedWidth (z.next).2 := by
  by_cases hc : z.leader.pos + z.leader.width ≤ z.leader.data.length
  · simp only [Zip.next, VStream.next, if_pos hc]
    constructor
    · intro f hf
      simp only [List.mem_map] at hf
      obtain ⟨g, hg, rfl⟩ := hf
      simp [VStream.nextUnchecked, h2 g hg]
    · intro f hf
      simp only [List.mem_map] at hf
      obtain ⟨g, hg, rfl⟩ := hf
      simp [VStream.nextUnchecked, h2 g hg]
  · simp only [Zip.next, VStream.next, if_neg hc]
    exact ⟨h1, h2⟩

lemma step_end_sync (z : Zip α) (h1 : inLockstep z) (h2 : sharedWidth z) :
    inLockstep (z.endv).2 ∧ sharedWidth (z.endv).2 := by
  by_cases hc : z.leader.data.length ≤ z.leader.pos
  · simp only [Zip.endv, VStream.endv, if_pos hc]
    exact ⟨h1, h2⟩
  · simp only [Zip.endv, VStream.endv, if_neg hc]
    constructor
    · intro f hf
      simp only [List.mem_map] at hf
      obtain ⟨g, hg, rfl⟩ := hf
      simp only [VStream.endUnchecked]
      omega
    · intro f hf
      simp only [List.mem_map] at hf
      obtain ⟨g, hg, rfl⟩ := hf
      simp [VStream.endUnchecked, h2 g hg]

lemma run_sync (z : Zip α) (ops : List ZOp) (h1 : inLockstep z) (h2 : sharedWidth z)
    (hops : ∀ k, ZOp.oadv k ∉ ops) :
    inLockstep (Zip.run z ops) ∧ sharedWidth (Zip.run z ops) := by
  induction ops generalizing z with
  | nil => exact ⟨h1, h2⟩
  | cons op ops ih =>
    have hop : ∀ k, op ≠ ZOp.oadv k := by
      intro k hk
      exact hops k (by simp [hk])
    have hstep : inLockstep (z.step op) ∧ sharedWidth (z.step op) := by
      cases op with
      | onext => exact step_next_sync z h1 h2
      | oend => exact step_end_sync z h1 h2
      | oadv k => exact absurd rfl (hop k)
    have htail : ∀ k, ZOp.oadv k ∉ ops := by
      intro k hk
      exact hops k (List.mem_cons_of_mem _ hk)
    simpa [Zip.run, List.foldl_cons] using ih (z.step op) hstep.1 hstep.2 htail

/-- Claim C1, counterexample: the claim quantifies over sequences that may
contain `advance(amount)`, but `Zip`'s `advance` moves only the leader, so a
single `advance(1)` on a freshly constructed equal-length two-member engine
leaves the follower's `scalar_pos` behind the leader's. -/
theorem zip_lockstep_cex :
    zip strA [strB] = some (Zip.mk strA [strB])
    ∧ ¬ inLockstep (Zip.run (Zip.mk strA [strB]) [ZOp.oadv 1]) := by
  decide

/-- Claim C1 (amended): for a Zip engine of arity N (2 ≤ N ≤ 13) whose
member streams share the leader's width and start at a common scalar
position, after any finite sequence of `next()` and `end()` calls (no raw
`advance`) all member streams report the identical `scalar_pos`; an
`advance(amount)` call moves only the leader, desynchronizing the followers
until the next successful `next()`/`end()`. -/
theorem zip_lockstep_sync (z : Zip α) (ops : List ZOp)
    (_hN : 1 ≤ z.followers.length) (_hN13 : z.followers.length ≤ 12)
    (h1 : inLockstep z) (h2 : sharedWidth z)
    (hops : ∀ k, ZOp.oadv k ∉ ops) :
    inLockstep (Zip.run z ops) :=
  (run_sync z ops h1 h2 hops).1

/-- Witness for C1: the amended lockstep theorem applied to the concrete
two-member engine and the call sequence `next; end`. -/
theorem zip_lockstep_sync_witness :
    inLockstep (Zip.run zAB [ZOp.onext, ZOp.oend]) :=
  zip_lockstep_sync zAB [ZOp.onext, ZOp.oend] (by decide) (by decide) (by decide)
    (by decide) (by intro k; simp)

/-- Claim C2: constructing a Zip engine fails (panics, here `none`) exactly
when some member's `scalar_len` differs from the leader's, before any vector
is produced; when all lengths agree it returns the engine wrapping the
streams untouched, consuming no element. -/
theorem zip_construction (l : VStream α) (fs : List (VStream α))
    (_hN : 1 ≤ fs.length) (_hN13 : fs.length ≤ 12) :
    (zip l fs = none ↔ ∃ f ∈ fs, VStream.scalarLen f ≠ VStream.scalarLen l)
    ∧ (zip l fs = some (Zip.mk l fs) ↔ ∀ f ∈ fs, VStream.scalarLen f = VStream.scalarLen l) := by
  by_cases h : ∀ f ∈ fs, VStream.scalarLen f = VStream.scalarLen l
  · rw [zip, if_pos h]
    constructor
    · constructor
      · intro hcon
        cases hcon
      · intro hex
        obtain ⟨f, hf, hne⟩ := hex
        exact absurd (h f hf) hne
    · exact ⟨fun _ => h, fun _ => rfl⟩
  · rw [zip, if_neg h]
    push_neg at h
    constructor
    · exact ⟨fun _ => h, fun _ => rfl⟩
    · constructor
      · intro hcon
        cases hcon
      · intro hall
        obtain ⟨f, hf, hne⟩ := h
        exact (hne (hall f hf)).elim

/-- Witness for C2: the construction theorem applied to the two concrete
equal-length streams. -/
theorem zip_construction_witness :
    (zip strA [strB] = none ↔ ∃ f ∈ [strB], VStream.scalarLen f ≠ VStream.scalarLen strA)
    ∧ (zip strA [strB] = some (Zip.mk strA [strB])
        ↔ ∀ f ∈ [strB], VStream.scalarLen f = VStream.scalarLen strA) :=
  zip_construction strA [strB] (by decide) (by decide)

/-- Claim C3: the engine's `next()` yields no value exactly when the
leader's `next()` does; when the leader yields a vector, the engine keys
every follower's `next_unchecked` on the leader's pre-advance scalar
position and returns the tuple with the leader's vector first, followed by
the followers' vectors in order. -/
theorem zip_next_protocol (z : Zip α) :
    ((Zip.next z).1 = none ↔ (VStream.next z.leader).1 = none)
    ∧ (∀ v l', VStream.next z.leader = (some v, l') →
        Zip.next z =
          (some (v :: z.followers.map
              (fun f => (f.nextUnchecked (VStream.scalarPos z.leader)).1)),
           Zip.mk l' (z.followers.map
              (fun f => (f.nextUnchecked (VStream.scalarPos z.leader)).2)))) := by
  rcases hl : VStream.next z.leader with ⟨r, l0⟩
  cases r with
  | none =>
    constructor
    · simp [Zip.next, hl]
    · intro v l' hv
      cases hv
  | some v0 =>
    constructor
    · simp [Zip.next, hl]
    · intro v l' hv
      injection hv with hv1 hv2
      injection hv1 with hv1
      subst hv1
      subst hv2
      simp [Zip.next, hl, VStream.scalarPos]

/-- Witness for C3: the `next` protocol theorem applied to the concrete
engine `zAB`, whose leader yields its first full vector. -/
theorem zip_next_protocol_witness :
    Zip.next zAB =
      (some ([1, 2, 3, 4] :: zAB.followers.map
          (fun f => (f.nextUnchecked (VStream.scalarPos zAB.leader)).1)),
       Zip.mk (VStream.mk [1, 2, 3, 4, 5, 6, 7, 8] 0 4 4 4)
         (zAB.followers.map
          (fun f => (f.nextUnchecked (VStream.scalarPos zAB.leader)).2))) :=
  (zip_next_protocol zAB).2 [1, 2, 3, 4]
    (VStream.mk [1, 2, 3, 4, 5, 6, 7, 8] 0 4 4 4) (by decide)

/-- Claim C4: the engine's `end()` yields no value exactly when the leader's
`end()` does; when the leader yields a tail `(v, n)`, the engine captures
the shared scalar position before asking the leader, keys every follower's
`end_unchecked` on that position and the leader's valid-lane count `n`, and
returns the tuple of vectors paired with the leader's `n` unchanged. -/
theorem zip_end_protocol (z : Zip α) :
    ((Zip.endv z).1 = none ↔ (VStream.endv z.leader).1 = none)
    ∧ (∀ v n l', VStream.endv z.leader = (some (v, n), l') →
        Zip.endv z =
          (some (v :: z.followers.map
              (fun f => (f.endUnchecked (VStream.scalarPos z.leader) n).1), n),
           Zip.mk l' (z.followers.map
              (fun f => (f.endUnchecked (VStream.scalarPos z.leader) n).2)))) := by
  rcases hl : VStream.endv z.leader with ⟨r, l0⟩
  cases r with
  | none =>
    constructor
    · simp [Zip.endv, hl]
    · intro v n l' hv
      cases hv
  | some vn =>
    rcases vn with ⟨v0, n0⟩
    constructor
    · simp [Zip.endv, hl]
    · intro v n l' hv
      injection hv with hv1 hv2
      injection hv1 with hv1
      injection hv1 with hva hvb
      subst hva
      subst hvb
      subst hv2
      simp [Zip.endv, hl, VStream.scalarPos]

/-- Witness for C4: the `end` protocol theorem applied to the concrete
engine `zTU`, positioned just before its two-lane ragged tail. -/
theorem zip_end_protocol_witness :
    Zip.endv zTU =
      (some ([5, 6, 0, 0] :: zTU.followers.map
          (fun f => (f.endUnchecked (VStream.scalarPos zTU.leader) 2).1), 2),
       Zip.mk (VStream.mk [1, 2, 3, 4, 5, 6] 0 4 4 6)
         (zTU.followers.map
          (fun f => (f.endUnchecked (VStream.scalarPos zTU.leader) 2).2))) :=
  (zip_end_protocol zTU).2 [5, 6, 0, 0] 2
    (VStream.mk [1, 2, 3, 4, 5, 6] 0 4 4 6) (by decide)

/-- Claim C9: when the leader's `next()` yields no value, the engine's
`next()` touches no follower: the followers' states are returned unchanged
(for any follower list whatsoever) and the engine's only state change is the
leader's own failed `next()` result. -/
theorem zip_next_frame (l : VStream α) (fs : List (VStream α))
    (h : (VStream.next l).1 = none) :
    Zip.next (Zip.mk l fs) = (none, Zip.mk (VStream.next l).2 fs) := by
  rcases hl : VStream.next l with ⟨r, l0⟩
  rw [hl] at h
  cases r with
  | none => simp [Zip.next, hl]
  | some v => cases h

/-- Witness for C9: the frame theorem applied to the short leader `strX`,
which cannot yield a full vector. -/
theorem zip_next_frame_witness :
    Zip.next (Zip.mk strX [strB]) = (none, Zip.mk (VStream.next strX).2 [strB]) :=
  zip_next_frame strX [strB] (by decide)

/-- Claim C6, counterexample: `default()` does involve the follower streams.
Two engines with the same leader but followers of different default scalars
return different default tuples, so `default()` is not determined by the
leader alone. -/
theorem zip_default_cex :
    (Zip.mk strA [strB]).leader = (Zip.mk strA [strB7]).leader
    ∧ Zip.defaultVec (Zip.mk strA [strB]) ≠ Zip.defaultVec (Zip.mk strA [strB7]) := by
  decide

/-- Claim C6 (amended): `scalar_pos()`, `advance(amount)`, `width()` and
`size()` delegate to the leader stream alone — `advance` mutates only the
leader and leaves every follower untouched — while `default()` returns the
tuple of every member's own default vector, the leader's first. -/
theorem zip_leader_delegation (z : Zip α) (amount : Nat) :
    Zip.scalarPos z = VStream.scalarPos z.leader
    ∧ Zip.advance z amount = Zip.mk (z.leader.advance amount) z.followers
    ∧ Zip.width z = z.leader.width
    ∧ Zip.size z = z.leader.size
    ∧ Zip.defaultVec z = z.leader.defaultVec :: z.followers.map VStream.defaultVec :=
  ⟨rfl, rfl, rfl, rfl, rfl⟩

/-- Claim C8: wrapping a zipped stream in a Zip-Map with the identity
transform yields, over any number of `next()` calls, exactly the same
answer sequence (same vectors, same no-value points) as calling `next()` on
the unwrapped stream directly. -/
theorem zmap_identity_transparent (count : Nat) (z : Zip α) (s : Nat) :
    SIMDZipMap.nextTrace count (SIMDZipMap.mk z (fun v => v) s)
      = Zip.nextTrace count z := by
  induction count generalizing z with
  | zero => rfl
  | succ n ih =>
    rcases hz : Zip.next z with ⟨r, z'⟩
    cases r with
    | none =>
      simp [SIMDZipMap.nextTrace, Zip.nextTrace, SIMDZipMap.next, hz, ih]
    | some v =>
      simp [SIMDZipMap.nextTrace, Zip.nextTrace, SIMDZipMap.next, hz, ih]

lemma VStream.endv_size (s : VStream α) : (s.endv).2.size = s.size := by
  rw [VStream.endv]
  split
  · rfl
  · rfl

lemma zip_endv_size (z : Zip α) : Zip.size (Zip.endv z).2 = Zip.size z := by
  rcases hl : VStream.endv z.leader with ⟨r, l0⟩
  have h2 : l0.size = z.leader.size := by
    have hsnd : (VStream.endv z.leader).2 = l0 := by rw [hl]
    rw [← hsnd, VStream.endv_size]
  cases r with
  | none => simp [Zip.endv, hl, Zip.size, h2]
  | some vn =>
    rcases vn with ⟨v, n⟩
    simp [Zip.endv, hl, Zip.size, h2]

/-- Claim C7: the Zip-Map's `end()` yields no value exactly when the inner
`end()` does; on an inner tail `(v, n)` it returns `func v` (the transform
applied exactly once) paired with the rescaled valid-lane count
`n * inner.size / self.size` under integer floor division, given a nonzero
output scalar size. -/
theorem zmap_end_rescale (m : SIMDZipMap α β) (hs : 0 < m.outSize) :
    ((Zip.endv m.iter).1 = none ↔
      SIMDZipMap.endv m
        = Except.ok (none, SIMDZipMap.mk (Zip.endv m.iter).2 m.func m.outSize))
    ∧ (∀ v n, (Zip.endv m.iter).1 = some (v, n) →
        SIMDZipMap.endv m =
          Except.ok (some (m.func v, n * Zip.size m.iter / m.outSize),
            SIMDZipMap.mk (Zip.endv m.iter).2 m.func m.outSize)) := by
  have h0 : m.outSize ≠ 0 := Nat.pos_iff_ne_zero.mp hs
  rcases hz : Zip.endv m.iter with ⟨r, z'⟩
  have hsz : Zip.size z' = Zip.size m.iter := by
    have h := zip_endv_size m.iter
    rw [hz] at h
    exact h
  cases r with
  | none =>
    constructor
    · simp [SIMDZipMap.endv, hz]
    · intro v n h
      simp at h
  | some vn =>
    rcases vn with ⟨v0, n0⟩
    constructor
    · simp [SIMDZipMap.endv, hz, h0]
    · intro v n h
      simp only [] at h
      injection h with h1
      injection h1 with ha hb
      subst ha
      subst hb
      simp [SIMDZipMap.endv, hz, h0, Zip.size] at hsz ⊢
      rw [hsz]

/-- Witness for C7: the rescaling theorem applied to the concrete Zip-Map
`mTU`, whose inner engine yields a two-lane tail. -/
theorem zmap_end_rescale_witness :
    SIMDZipMap.endv mTU =
      Except.ok (some (mTU.func [[5, 6, 0, 0], [5, 4, 5, 5]],
          2 * Zip.size mTU.iter / mTU.outSize),
        SIMDZipMap.mk (Zip.endv mTU.iter).2 mTU.func mTU.outSize) :=
  (zmap_end_rescale mTU (by decide)).2 [[5, 6, 0, 0], [5, 4, 5, 5]] 2 (by decide)

/-- Claim C10: with a nonzero output scalar size, the unguarded integer
division in the Zip-Map's `end()` cannot fail — the divide-by-zero (panic)
branch is unreachable and `end()` is total. -/
theorem zmap_end_total (m : SIMDZipMap α β) (hs : 0 < m.outSize) :
    isOkE (SIMDZipMap.endv m) = true := by
  have h0 : m.outSize ≠ 0 := Nat.pos_iff_ne_zero.mp hs
  rcases hz : Zip.endv m.iter with ⟨r, z'⟩
  cases r with
  | none => simp [SIMDZipMap.endv, hz, isOkE]
  | some vn =>
    rcases vn with ⟨v, n⟩
    simp [SIMDZipMap.endv, hz, h0, isOkE]

/-- Witness for C10: totality of the concrete Zip-Map `mTU`'s `end()`. -/
theorem zmap_end_total_witness :
    isOkE (SIMDZipMap.endv mTU) = true :=
  zmap_end_total mTU (by decide)

lemma reduceGo_eq (f : β → List (List α) → β) (fuel : Nat) (acc : β) (z : Zip α) :
    reduceGo f fuel acc z
      = ((Zip.collectNexts fuel z).1.foldl f acc, (Zip.collectNexts fuel z).2) := by
  induction fuel generalizing acc z with
  | zero => rfl
  | succ n ih =>
    rcases hz : Zip.next z with ⟨r, z'⟩
    cases r with
    | none => simp [reduceGo, Zip.collectNexts, hz]
    | some v => simp [reduceGo, Zip.collectNexts, hz, ih]

lemma zip_next_fst_none_iff (z : Zip α) :
    (Zip.next z).1 = none ↔ z.leader.data.length < z.leader.pos + z.leader.width := by
  by_cases hc : z.leader.pos + z.leader.width ≤ z.leader.data.length
  · simp only [Zip.next, VStream.next, if_pos hc]
    simp
    omega
  · simp only [Zip.next, VStream.next, if_neg hc]
    simp
    omega

lemma zip_next_leader (z : Zip α) :
    ((Zip.next z).2).leader = (VStream.next z.leader).2 := by
  rcases hz : VStream.next z.leader with ⟨r, l0⟩
  cases r with
  | none => simp [Zip.next, hz]
  | some v => simp [Zip.next, hz]

lemma VStream.next_snd_fields (s : VStream α) :
    (s.next).2.data = s.data ∧ (s.next).2.width = s.width := by
  rw [VStream.next]
  split
  · exact ⟨rfl, rfl⟩
  · exact ⟨rfl, rfl⟩

lemma VStream.next_snd_pos (s : VStream α) (h : s.pos + s.width ≤ s.data.length) :
    (s.next).2.pos = s.pos + s.width := by
  rw [VStream.next, if_pos h]

lemma collect_exhaust (fuel : Nat) (z : Zip α) (hw : 0 < z.leader.width)
    (hn : z.leader.data.length - z.leader.pos < fuel) :
    (Zip.next (Zip.collectNexts fuel z).2).1 = none := by
  induction fuel generalizing z with
  | zero => omega
  | succ n ih =>
    by_cases hc : z.leader.pos + z.leader.width ≤ z.leader.data.length
    · rcases hz : Zip.next z with ⟨r, z'⟩
      cases r with
      | none =>
        have hcon := (zip_next_fst_none_iff z).mp (by rw [hz])
        omega
      | some v =>
        have hlead : z'.leader = (VStream.next z.leader).2 := by
          have h := zip_next_leader z
          rw [hz] at h
          exact h
        have hdata : z'.leader.data = z.leader.data := by
          rw [hlead]
          exact (VStream.next_snd_fields z.leader).1
        have hwidth : z'.leader.width = z.leader.width := by
          rw [hlead]
          exact (VStream.next_snd_fields z.leader).2
        have hpos : z'.leader.pos = z.leader.pos + z.leader.width := by
          rw [hlead]
          exact VStream.next_snd_pos z.leader hc
        have hres := ih z' (by omega) (by rw [hdata, hpos]; omega)
        simpa [Zip.collectNexts, hz] using hres
    · rcases hz : Zip.next z with ⟨r, z'⟩
      have hr : r = none := by
        have h := (zip_next_fst_none_iff z).mpr (by omega)
        rw [hz] at h
        exact h
      subst hr
      have hlead : z'.leader = z.leader := by
        have h := zip_next_leader z
        rw [hz] at h
        rw [h, VStream.next, if_neg hc]
      simp only [Zip.collectNexts, hz]
      refine (zip_next_fst_none_iff z').mpr ?_
      rw [hlead]
      omega

lemma simdReduce_eq (z : Zip α) (start : β) (f : β → List (List α) → β) :
    simdReduce z start f =
      (match (Zip.endv (Zip.collectNexts (Zip.len z + 1) z).2).1 with
       | some (v, _) => f ((Zip.collectNexts (Zip.len z + 1) z).1.foldl f start) v
       | none => (Zip.collectNexts (Zip.len z + 1) z).1.foldl f start) := by
  simp only [simdReduce, reduceGo_eq]

/-- Claim C5: `simd_reduce(start, func)` folds `func` over each vector
yielded by successive `next()` calls until no value is produced (the
`scalar_len + 1` fuel of the embedding being sufficient whenever the width
is positive), then applies `func` exactly once more to the tail vector if
`end()` yields one, ignoring its valid-lane count; in particular, for two
zipped 100-element streams of the exact scalar values 2 and 3 with width 4,
`next()` yields 25 full vectors, `end()` yields no value, and reducing
lane-wise addition from the zero vector gives 125 in every lane. -/
theorem simd_reduce_spec :
    (∀ (γ δ : Type) (f : δ → List (List γ) → δ) (fuel : Nat) (acc : δ) (z : Zip γ),
        reduceGo f fuel acc z
          = ((Zip.collectNexts fuel z).1.foldl f acc, (Zip.collectNexts fuel z).2))
    ∧ (∀ (γ δ : Type) (z : Zip γ) (start : δ) (f : δ → List (List γ) → δ),
        simdReduce z start f =
          (match (Zip.endv (Zip.collectNexts (Zip.len z + 1) z).2).1 with
           | some (v, _) => f ((Zip.collectNexts (Zip.len z + 1) z).1.foldl f start) v
           | none => (Zip.collectNexts (Zip.len z + 1) z).1.foldl f start))
    ∧ (∀ (γ : Type) (z : Zip γ), 0 < z.leader.width →
        (Zip.next (Zip.collectNexts (Zip.len z + 1) z).2).1 = none)
    ∧ ((Zip.collectNexts (Zip.len zC5 + 1) zC5).1.length = 25
        ∧ (Zip.endv (Zip.collectNexts (Zip.len zC5 + 1) zC5).2).1 = none
        ∧ simdReduce zC5 (List.replicate 4 (0 : Int)) addLanes = List.replicate 4 125) := by
  refine ⟨?_, ?_, ?_, ?_, ?_, ?_⟩
  · intro γ δ f fuel acc z
    exact reduceGo_eq f fuel acc z
  · intro γ δ z start f
    exact simdReduce_eq z start f
  · intro γ z hw
    refine collect_exhaust (Zip.len z + 1) z hw ?_
    simp only [Zip.len, VStream.scalarLen]
    omega
  · decide
  · decide
  · decide

/-- Witness for C5: the exhaustion conjunct applied to the concrete engine
`zAB`, whose leader width is positive. -/
theorem simd_reduce_spec_witness :
    (Zip.next (Zip.collectNexts (Zip.len zAB + 1) zAB).2).1 = none :=
  simd_reduce_spec.2.2.1 Int zAB (by decide)
